import Mathlib

/-!
Verification of the rhizo storage core against its specification.

Shallow embedding of the parts of the `rhizo` repository that the claims
C1..C10 concern, translated from:

* `src/udr_core/src/chunk_store/store.rs`   (content-addressed chunk store)
* `src/udr_core/src/merkle/tree.rs`, `types.rs` (Merkle tree builder / differ)
* `src/udr_core/src/branch/branch.rs`, `manager.rs` (branch diff / fast-forward)
* `src/rhizo_core/src/distributed/vector_clock.rs` (vector clocks)
* `src/udr_core/src/parquet/filter.rs`, `encoder.rs`, `decoder.rs` (parquet codec)

Modelling conventions:

* Bytes are `Nat` values (`< 256` for real data); byte strings are `List Nat`.
* The BLAKE3 digest is an external library the repository calls; it is
  abstracted as a parameter `f : List Nat → List Nat` producing the 32-byte
  digest.  The lowercase hex rendering (`to_hex`) is embedded concretely.
* The file system is modelled as an association list from chunk path key to
  content.  `hash_to_path` is injective in the hash, so the hash string
  itself is used as the path key.
* Rust `HashMap`s are association lists with pairwise-distinct keys;
  `HashSet`s are deduplicated lists in first-insertion order (Rust's actual
  iteration order is unspecified; all set-level statements are
  order-independent, and order-dependent statements are flagged).
* Rust `String` ordering is byte-wise lexicographic on UTF-8; this equals
  code-point lexicographic order, embedded as `List Char` lexicographic
  order on `String.data`.
-/

namespace Rhizo

/-! ## Hex rendering of digests (blake3 `to_hex`, lowercase) -/

/-- One lowercase hex digit, as produced by blake3's `to_hex`. -/
def hexDigitChar (n : Nat) : Char :=
  if n < 10 then Char.ofNat ('0'.toNat + n)
  else Char.ofNat ('a'.toNat + (n - 10))

/-- Two lowercase hex digits of one byte (high nibble first). -/
def byteToHex (b : Nat) : List Char :=
  [hexDigitChar (b / 16 % 16), hexDigitChar (b % 16)]

/-- Lowercase hex string of a byte sequence. -/
def bytesToHex (bs : List Nat) : String :=
  String.mk ((bs.map byteToHex).flatten)

/-- Hex digest of `d` under abstract 32-byte digest function `f`
(`blake3::hash(d).to_hex().to_string()` in the source). -/
def hexHash (f : List Nat → List Nat) (d : List Nat) : String :=
  bytesToHex (f d)

/-- Rust `char::is_ascii_hexdigit`: `0-9`, `a-f` or `A-F`. -/
def isAsciiHexDigit (c : Char) : Bool :=
  ('0' ≤ c && c ≤ '9') || ('a' ≤ c && c ≤ 'f') || ('A' ≤ c && c ≤ 'F')

/-- Lowercase-only hex digit, the character class of the spec's validation
regex `^[0-9a-f]{64}$`. -/
def isLowerHexDigit (c : Char) : Bool :=
  ('0' ≤ c && c ≤ '9') || ('a' ≤ c && c ≤ 'f')

/-- The spec's validation regex `^[0-9a-f]{64}$` as a predicate. -/
def matchesLowerHexRegex (h : String) : Bool :=
  h.length == 64 && h.data.all isLowerHexDigit

/-! ## Chunk store (`src/udr_core/src/chunk_store/store.rs`) -/

/-- `ChunkStoreError` (`src/udr_core/src/chunk_store/error.rs`); the I/O
payload is irrelevant to the claims and dropped. -/
inductive ChunkStoreError where
  | Io
  | NotFound (hash : String)
  | InvalidHash (msg : String)
  | HashMismatch (expected actual : String)
deriving DecidableEq

/-- The store's persisted state: chunk path key (the hash, since
`hash_to_path` is injective in it) to stored bytes. -/
abbrev ChunkStoreState := List (String × List Nat)

/-- `ChunkStore::validate_hash`: 64 characters, all ASCII hex digits.
Rust checks the UTF-8 byte length; for the `Ok` outcome this agrees with the
character count used here, because all-ASCII strings have equal byte and
character counts, and the `Err` outcome agrees in every case (message text,
which this model fixes, may differ). -/
def validate_hash (hash : String) : Except ChunkStoreError Unit :=
  if hash.length ≠ 64 then
    .error (.InvalidHash ("expected 64 characters"))
  else if ¬ (hash.data.all isAsciiHexDigit) then
    .error (.InvalidHash ("hash must contain only hexadecimal characters"))
  else
    .ok ()

/-- `ChunkStore::hash_to_path`: rejects hashes shorter than 4 characters,
otherwise derives `base/h[0..2]/h[2..4]/h`.  The derived path is injective
in the hash, so the model returns the hash itself as path key. -/
def hash_to_path (hash : String) : Except ChunkStoreError String :=
  if hash.length < 4 then .error (.InvalidHash ("hash too short"))
  else .ok hash

/-- `ChunkStore::put`: hash the data; if no chunk file exists at the derived
path, write it (the temp-file + rename protocol is atomic, so it is modelled
as a single state update); always return the hex hash. -/
def put (f : List Nat → List Nat) (s : ChunkStoreState) (data : List Nat) :
    Except ChunkStoreError (String × ChunkStoreState) :=
  let hash := hexHash f data
  match hash_to_path hash with
  | .error e => .error e
  | .ok path =>
    match s.lookup path with
    | some _ => .ok (hash, s)
    | none => .ok (hash, (path, data) :: s)

/-- `ChunkStore::get`: validate, derive path, read; missing chunk is
`NotFound`. -/
def get (s : ChunkStoreState) (hash : String) :
    Except ChunkStoreError (List Nat) :=
  match validate_hash hash with
  | .error e => .error e
  | .ok _ =>
    match hash_to_path hash with
    | .error e => .error e
    | .ok path =>
      match s.lookup path with
      | none => .error (.NotFound hash)
      | some d => .ok d

/-- `ChunkStore::exists`: validate, then check the path. -/
def existsChunk (s : ChunkStoreState) (hash : String) :
    Except ChunkStoreError Bool :=
  match validate_hash hash with
  | .error e => .error e
  | .ok _ =>
    match hash_to_path hash with
    | .error e => .error e
    | .ok path => .ok (s.lookup path).isSome

/-- `ChunkStore::delete`: validate, then remove the file if present
(missing chunk is a no-op).  Returns the post-state. -/
def delete (s : ChunkStoreState) (hash : String) :
    Except ChunkStoreError ChunkStoreState :=
  match validate_hash hash with
  | .error e => .error e
  | .ok _ =>
    match hash_to_path hash with
    | .error e => .error e
    | .ok path =>
      if (s.lookup path).isSome then .ok (s.eraseP (·.1 == path))
      else .ok s

/-! ### Chunk-store lemmas -/

theorem hexChars_length (bs : List Nat) :
    ((bs.map byteToHex).flatten).length = 2 * bs.length := by
  induction bs with
  | nil => rfl
  | cons b bs ih => simp [byteToHex] at ih ⊢; omega

theorem bytesToHex_length (bs : List Nat) :
    (bytesToHex bs).length = 2 * bs.length :=
  hexChars_length bs

theorem isLowerHexDigit_hexDigitChar (n : Nat) (hn : n < 16) :
    isLowerHexDigit (hexDigitChar n) = true := by
  have h : ∀ m : Fin 16, isLowerHexDigit (hexDigitChar m.val) = true := by decide
  exact h ⟨n, hn⟩

theorem mem_bytesToHex_isLowerHex (bs : List Nat) (c : Char)
    (hc : c ∈ (bytesToHex bs).data) : isLowerHexDigit c = true := by
  have hc' : c ∈ (bs.map byteToHex).flatten := hc
  rw [List.mem_flatten] at hc'
  obtain ⟨l, hl, hcl⟩ := hc'
  rw [List.mem_map] at hl
  obtain ⟨b, _, rfl⟩ := hl
  simp only [byteToHex, List.mem_cons, List.mem_singleton, List.not_mem_nil,
    or_false] at hcl
  rcases hcl with h | h
  · exact h ▸ isLowerHexDigit_hexDigitChar _ (Nat.mod_lt _ (by omega))
  · exact h ▸ isLowerHexDigit_hexDigitChar _ (Nat.mod_lt _ (by omega))

theorem isLowerHexDigit_imp_ascii (c : Char) (h : isLowerHexDigit c = true) :
    isAsciiHexDigit c = true := by
  simp only [isLowerHexDigit, Bool.or_eq_true, Bool.and_eq_true] at h
  simp only [isAsciiHexDigit, Bool.or_eq_true, Bool.and_eq_true]
  tauto

theorem hexHash_length (f : List Nat → List Nat) (hf : ∀ d, (f d).length = 32)
    (d : List Nat) : (hexHash f d).length = 64 := by
  show (bytesToHex (f d)).length = 64
  rw [bytesToHex_length, hf]

theorem hexHash_all_lower (f : List Nat → List Nat) (d : List Nat) :
    ((hexHash f d).data.all isLowerHexDigit) = true := by
  rw [List.all_eq_true]
  intro c hc
  exact mem_bytesToHex_isLowerHex _ _ hc

theorem validate_hash_hexHash (f : List Nat → List Nat)
    (hf : ∀ d, (f d).length = 32) (d : List Nat) :
    validate_hash (hexHash f d) = .ok () := by
  have h64 := hexHash_length f hf d
  have hall : ((hexHash f d).data.all isAsciiHexDigit) = true := by
    rw [List.all_eq_true]
    intro c hc
    exact isLowerHexDigit_imp_ascii c (mem_bytesToHex_isLowerHex _ _ hc)
  simp [validate_hash, h64, hall]

theorem hash_to_path_hexHash (f : List Nat → List Nat)
    (hf : ∀ d, (f d).length = 32) (d : List Nat) :
    hash_to_path (hexHash f d) = .ok (hexHash f d) := by
  have h64 := hexHash_length f hf d
  simp [hash_to_path, h64]

/-! ### C1 -/

theorem put_get_roundtrip_aux (f : List Nat → List Nat)
    (hf : ∀ d, (f d).length = 32) (s : ChunkStoreState) (d : List Nat)
    (hclean : s.lookup (hexHash f d) = none ∨
      s.lookup (hexHash f d) = some d) :
    ∃ s',
      put f s d = .ok (hexHash f d, s') ∧
      put f s' d = .ok (hexHash f d, s') ∧
      get s' (hexHash f d) = .ok d := by
  have hpath := hash_to_path_hexHash f hf d
  have hval := validate_hash_hexHash f hf d
  rcases hclean with hnone | hsome
  · refine ⟨(hexHash f d, d) :: s, ?_, ?_, ?_⟩
    · simp [put, hpath, hnone]
    · simp [put, hpath, List.lookup]
    · simp [get, hval, hpath, List.lookup]
  · refine ⟨s, ?_, ?_, ?_⟩
    · simp [put, hpath, hsome]
    · simp [put, hpath, hsome]
    · simp [get, hval, hpath, hsome]

/-- C1 (amended): for every byte sequence `d` and every store state that is
not corrupted at `d`'s hash (any chunk already filed under `hexHash f d` has
content `d` — guaranteed in practice by the spec's path/content invariant
together with collision-freedom of the digest), `put` returns the same
64-lowercase-hex-character hash on both calls, and `get` of that hash after
the `put` returns exactly `d`.  The digest `f` abstracts BLAKE3 (32-byte
output). -/
theorem C1_put_get_roundtrip (f : List Nat → List Nat)
    (hf : ∀ d, (f d).length = 32) (s : ChunkStoreState) (d : List Nat)
    (hclean : s.lookup (hexHash f d) = none ∨
      s.lookup (hexHash f d) = some d) :
    ∃ s',
      put f s d = .ok (hexHash f d, s') ∧
      put f s' d = .ok (hexHash f d, s') ∧
      (hexHash f d).length = 64 ∧
      ((hexHash f d).data.all isLowerHexDigit) = true ∧
      get s' (hexHash f d) = .ok d := by
  obtain ⟨s', h1, h2, h3⟩ := put_get_roundtrip_aux f hf s d hclean
  exact ⟨s', h1, h2, hexHash_length f hf d, hexHash_all_lower f d, h3⟩

/-- Fixed stand-in for the abstract digest, used to instantiate the
hypotheses of the chunk-store theorems at concrete inputs. -/
def constDigest : List Nat → List Nat := fun _ => List.replicate 32 0

theorem C1_put_get_roundtrip_witness :
    ∃ s',
      put constDigest [] [7] = .ok (hexHash constDigest [7], s') ∧
      put constDigest s' [7] = .ok (hexHash constDigest [7], s') ∧
      (hexHash constDigest [7]).length = 64 ∧
      ((hexHash constDigest [7]).data.all isLowerHexDigit) = true ∧
      get s' (hexHash constDigest [7]) = .ok [7] :=
  C1_put_get_roundtrip constDigest (fun _ => rfl) [] [7] (.inl rfl)

/-- Store state holding a corrupted blob under the hash of `[7]`. -/
def corruptStore : ChunkStoreState := [(hexHash constDigest [7], [9])]

/-- C1 (counterexample to the claim as stated): over an *arbitrary* store
state the roundtrip fails — if a different blob already sits at the chunk
path of `hexHash f d` (the repository's own corruption test exercises this:
`put` skips the write because the path exists and a plain `get` returns the
corrupted content), `get (put d)` returns that blob, not `d`. -/
theorem C1_counterexample :
    put constDigest corruptStore [7] = .ok (hexHash constDigest [7], corruptStore) ∧
    get corruptStore (hexHash constDigest [7]) = .ok [9] ∧
    ([9] : List Nat) ≠ [7] :=
  ⟨rfl, rfl, by decide⟩

/-! ### C2 -/

theorem validate_hash_err (h : String)
    (hbad : ¬ (h.length = 64 ∧ h.data.all isAsciiHexDigit = true)) :
    ∃ m, validate_hash h = .error (.InvalidHash m) := by
  by_cases h64 : h.length = 64
  · have hhex : ¬ (h.data.all isAsciiHexDigit = true) := fun hh => hbad ⟨h64, hh⟩
    exact ⟨("hash must contain only hexadecimal characters"),
      by simp [validate_hash, h64, hhex]⟩
  · exact ⟨("expected 64 characters"), by simp [validate_hash, h64]⟩

/-- C2 (amended): `get`, `exists` and `delete` return `InvalidHash` for
exactly the strings that are not 64 characters of ASCII hex — the code's
`is_ascii_hexdigit` also accepts uppercase `A-F`, so the class of accepted
strings is `^[0-9a-fA-F]{64}$`, not the spec's lowercase-only regex.  The
error is raised before any path is derived, so the store is untouched (the
model returns no successor state on error). -/
theorem C2_invalid_hash (s : ChunkStoreState) (h : String)
    (hbad : ¬ (h.length = 64 ∧ h.data.all isAsciiHexDigit = true)) :
    (∃ m, get s h = .error (.InvalidHash m)) ∧
    (∃ m, existsChunk s h = .error (.InvalidHash m)) ∧
    (∃ m, delete s h = .error (.InvalidHash m)) := by
  obtain ⟨m, hm⟩ := validate_hash_err h hbad
  exact ⟨⟨m, by simp [get, hm]⟩, ⟨m, by simp [existsChunk, hm]⟩,
    ⟨m, by simp [delete, hm]⟩⟩

/-- A malformed hash used to instantiate `C2_invalid_hash`. -/
def badHash : String := "xyz"

theorem C2_invalid_hash_witness :
    (∃ m, get [] badHash = .error (.InvalidHash m)) ∧
    (∃ m, existsChunk [] badHash = .error (.InvalidHash m)) ∧
    (∃ m, delete [] badHash = .error (.InvalidHash m)) :=
  C2_invalid_hash [] badHash (by decide)

/-- A 64-character string of uppercase `A`s: rejected by the spec's
lowercase regex but accepted by the code's validation. -/
def hashAllA : String := String.mk (List.replicate 64 'A')

/-- C2 (counterexample to the claim as stated): `hashAllA` does not match
`^[0-9a-f]{64}$`, yet none of `get`/`exists`/`delete` return `InvalidHash`
on it — validation passes (Rust's `is_ascii_hexdigit` is case-insensitive)
and the operations proceed against the store. -/
theorem C2_counterexample :
    matchesLowerHexRegex hashAllA = false ∧
    get [] hashAllA = .error (.NotFound hashAllA) ∧
    existsChunk [] hashAllA = .ok false ∧
    delete [] hashAllA = .ok [] :=
  ⟨by decide, rfl, rfl, rfl⟩

/-! ## String ordering

Rust compares `String`s byte-wise on their UTF-8 encoding, which coincides
with code-point lexicographic order; embedded as the lexicographic order on
`String.data`. -/

/-- Rust `String` order (`Ord` on `String` / `str`). -/
def strLe (a b : String) : Prop := a.data ≤ b.data

instance : DecidableRel strLe := fun a b =>
  inferInstanceAs (Decidable (a.data ≤ b.data))

instance : IsTotal String strLe :=
  ⟨fun a b => IsTotal.total (r := (· ≤ · : List Char → List Char → Prop)) a.data b.data⟩

instance : IsTrans String strLe :=
  ⟨fun _ _ _ hab hbc => le_trans (α := List Char) hab hbc⟩

/-! ## Merkle tree (`src/udr_core/src/merkle/`) -/

/-- `MerkleError` (`src/udr_core/src/merkle/error.rs`). -/
inductive MerkleError where
  | Io
  | ChunkNotFound (hash : String)
  | InvalidChunkSize (n : Nat)
  | EmptyData
  | IntegrityError (expected actual : String)
  | TreeCorruption (msg : String)
deriving DecidableEq

/-- `DataChunk` (`src/udr_core/src/merkle/types.rs`). -/
structure DataChunk where
  hash : String
  byte_range : Nat × Nat
  size : Nat
  index : Nat
deriving DecidableEq

/-- `MerkleNode` (`src/udr_core/src/merkle/types.rs`). -/
structure MerkleNode where
  hash : String
  children : List String
  level : Nat
  index : Nat
deriving DecidableEq

/-- `MerkleTree` (`src/udr_core/src/merkle/types.rs`). -/
structure MerkleTree where
  root_hash : String
  chunks : List DataChunk
  internal_nodes : List (List MerkleNode)
  total_size : Nat
  chunk_size : Nat
  height : Nat
deriving DecidableEq

/-- `MerkleConfig` (`src/udr_core/src/merkle/types.rs`). -/
structure MerkleConfig where
  chunk_size : Nat
  branching_factor : Nat
deriving DecidableEq

/-- `MerkleDiff` (`src/udr_core/src/merkle/types.rs`).  The `reuse_ratio`
field is a 64-bit float used by no claim and omitted. -/
structure MerkleDiff where
  unchanged_chunks : List String
  removed_chunks : List String
  added_chunks : List String
deriving DecidableEq

/-- `split_into_chunks` loop body: slice `[offset, min (offset+cs) len)`
off the remaining data, hash it, recurse.  The `cs = 0` case cannot be
reached from `build_tree` (guarded by `InvalidChunkSize`); in Rust it would
loop forever, modelled here as returning `[]`. -/
def split_go (f : List Nat → List Nat) (cs : Nat) (data : List Nat)
    (offset index : Nat) : List DataChunk :=
  match data, cs with
  | [], _ => []
  | _ :: _, 0 => []
  | d :: rest, cs' + 1 =>
    let c := d :: rest.take cs'
    ⟨hexHash f c, (offset, offset + c.length), c.length, index⟩ ::
      split_go f (cs' + 1) (rest.drop cs') (offset + c.length) (index + 1)
  termination_by data.length
  decreasing_by simp; omega

/-- `split_into_chunks` (`src/udr_core/src/merkle/tree.rs`). -/
def split_into_chunks (f : List Nat → List Nat) (data : List Nat)
    (chunk_size : Nat) : List DataChunk :=
  split_go f chunk_size data 0 0

/-- Rust `slice::chunks(bf)`: groups of `bf`, last group may be short.
`bf = 0` panics in Rust and is never used by the tree builder; modelled as
`[]`. -/
def chunksOf {α : Type} (bf : Nat) (l : List α) : List (List α) :=
  match l, bf with
  | [], _ => []
  | _ :: _, 0 => []
  | x :: rest, b + 1 =>
    (x :: rest.take b) :: chunksOf (b + 1) (rest.drop b)
  termination_by l.length
  decreasing_by simp; omega

/-- UTF-8 bytes of a string (exact for the ASCII hex strings hashed by the
tree builder). -/
def str_bytes (s : String) : List Nat := s.data.map Char.toNat

/-- Digest of the concatenation of child hex digests
(`blake3::hash(combined.as_bytes())` in `build_tree_from_leaves`). -/
def hashChildren (f : List Nat → List Nat) (children : List String) : String :=
  hexHash f (str_bytes (String.join children))

/-- The `while current_level.len() > 1` loop of `build_tree_from_leaves`,
with fuel for termination: each pass groups the current level into
`branching_factor`-sized groups and hashes each group.  With
`branching_factor ≥ 2` the level shrinks every pass, so fuel
`chunks.length` is never exhausted; with `branching_factor ≤ 1` Rust loops
forever (or panics), which no claim touches. -/
def build_levels (f : List Nat → List Nat) (bf : Nat) :
    Nat → List String → List (List MerkleNode) → Nat →
    List (List MerkleNode) × String × Nat
  | 0, current, acc, level => (acc.reverse, current.headD (""), level)
  | fuel + 1, current, acc, level =>
    if current.length ≤ 1 then (acc.reverse, current.headD (""), level)
    else
      let nodes := (chunksOf bf current).enum.map fun p =>
        MerkleNode.mk (hashChildren f p.2) p.2 level p.1
      build_levels f bf fuel (nodes.map (·.hash)) (nodes :: acc) (level + 1)

/-- `build_tree_from_leaves` (`src/udr_core/src/merkle/tree.rs`); returns
`(root_hash, internal_nodes, height)`. -/
def build_tree_from_leaves (f : List Nat → List Nat) (chunks : List DataChunk)
    (branching_factor : Nat) : String × List (List MerkleNode) × Nat :=
  match chunks with
  | [] => ((""), [], 0)
  | [c] => (c.hash, [], 1)
  | _ =>
    let r := build_levels f branching_factor chunks.length
      (chunks.map (·.hash)) [] 1
    (r.2.1, r.1, r.2.2)

/-- `build_tree` (`src/udr_core/src/merkle/tree.rs`). -/
def build_tree (f : List Nat → List Nat) (data : List Nat)
    (config : MerkleConfig) : Except MerkleError MerkleTree :=
  if data.isEmpty then .error .EmptyData
  else if config.chunk_size = 0 then .error (.InvalidChunkSize 0)
  else
    let chunks := split_into_chunks f data config.chunk_size
    if chunks.isEmpty then .error .EmptyData
    else
      let r := build_tree_from_leaves f chunks config.branching_factor
      .ok ⟨r.1, chunks, r.2.1, data.length, config.chunk_size, r.2.2⟩

/-- The leaf hashes of a tree, in chunk order. -/
def leafHashes (t : MerkleTree) : List String := t.chunks.map (·.hash)

/-- `diff_trees` (`src/udr_core/src/merkle/tree.rs`).  The Rust code builds
`HashSet`s of the two trees' leaf hashes and collects
intersection/difference iterators into vectors *without sorting them*; the
sets are modelled as deduplicated lists in first-insertion order, and the
collected vectors inherit that (unspecified in Rust) order.  `reuse_ratio`
(a float used by no claim) is omitted. -/
def diff_trees (old tnew : MerkleTree) : MerkleDiff :=
  let old_hashes := (leafHashes old).dedup
  let new_hashes := (leafHashes tnew).dedup
  { unchanged_chunks := old_hashes.filter fun h => decide (h ∈ new_hashes)
    removed_chunks := old_hashes.filter fun h => decide (h ∉ new_hashes)
    added_chunks := new_hashes.filter fun h => decide (h ∉ old_hashes) }

/-! ### C6 -/

/-- C6: as sets of hashes, `unchanged ∪ removed` is exactly the leaf-hash
set of the old tree, `unchanged ∪ added` exactly that of the new tree, and
the three result vectors are pairwise disjoint. -/
theorem C6_diff_trees_partition (a b : MerkleTree) :
    ∀ h : String,
      ((h ∈ (diff_trees a b).unchanged_chunks ∨
        h ∈ (diff_trees a b).removed_chunks) ↔ h ∈ leafHashes a) ∧
      ((h ∈ (diff_trees a b).unchanged_chunks ∨
        h ∈ (diff_trees a b).added_chunks) ↔ h ∈ leafHashes b) ∧
      ¬ (h ∈ (diff_trees a b).unchanged_chunks ∧
         h ∈ (diff_trees a b).removed_chunks) ∧
      ¬ (h ∈ (diff_trees a b).unchanged_chunks ∧
         h ∈ (diff_trees a b).added_chunks) ∧
      ¬ (h ∈ (diff_trees a b).removed_chunks ∧
         h ∈ (diff_trees a b).added_chunks) := by
  intro h
  simp only [diff_trees, List.mem_filter, List.mem_dedup, decide_eq_true_eq,
    decide_not, Bool.not_eq_eq_eq_not, Bool.not_true, decide_eq_false_iff_not]
  tauto

/-! ## Branches (`src/udr_core/src/branch/`) -/

/-- `BranchError` (`src/udr_core/src/branch/error.rs`); I/O and JSON
payloads dropped. -/
inductive BranchError where
  | Io
  | Json
  | BranchNotFound (name : String)
  | BranchAlreadyExists (name : String)
  | CannotDeleteDefault (name : String)
  | InvalidBranchName (msg : String)
  | MergeConflict (tables : List String)
  | CannotFastForward (source_branch target_branch : String)
deriving DecidableEq

/-- A branch head: Rust `HashMap<String, u64>` as an association list with
pairwise-distinct keys. -/
abbrev Head := List (String × Nat)

/-- `Branch` (`src/udr_core/src/branch/branch.rs`). -/
structure Branch where
  name : String
  head : Head
  created_at : Int
  parent_branch : Option String
  description : Option String
deriving DecidableEq

/-- `Branch::set_table_version`: `HashMap::insert` — overwrite the entry if
the key is present, otherwise add it. -/
def set_table_version (h : Head) (table : String) (version : Nat) : Head :=
  if h.any (fun p => p.1 == table) then
    h.map fun p => if p.1 == table then (table, version) else p
  else h ++ [(table, version)]

/-- Key order on keyed pairs, used by the `sort_by` calls of
`BranchDiff::compute`. -/
def keyLe {β : Type} (a b : String × β) : Prop := strLe a.1 b.1

instance {β : Type} : DecidableRel (@keyLe β) := fun a b =>
  inferInstanceAs (Decidable (strLe a.1 b.1))

instance {β : Type} : IsTotal (String × β) keyLe :=
  ⟨fun a b => IsTotal.total (r := strLe) a.1 b.1⟩

instance {β : Type} : IsTrans (String × β) keyLe :=
  ⟨fun a b c hab hbc => IsTrans.trans (r := strLe) a.1 b.1 c.1 hab hbc⟩

/-- `BranchDiff` (`src/udr_core/src/branch/branch.rs`). -/
structure BranchDiff where
  source_branch : String
  target_branch : String
  unchanged : List String
  modified : List (String × Nat × Nat)
  added_in_source : List (String × Nat)
  added_in_target : List (String × Nat)
  has_conflicts : Bool
deriving DecidableEq

/-- The `modified` vector of `BranchDiff::compute` before sorting: source
tables whose target version differs. -/
def modifiedEntries (source target : Branch) : List (String × Nat × Nat) :=
  source.head.filterMap fun p =>
    match target.head.lookup p.1 with
    | some tv => if p.2 == tv then none else some (p.1, p.2, tv)
    | none => none

/-- `BranchDiff::compute` (`src/udr_core/src/branch/branch.rs`): classify
every source table against the target head, collect target-only tables,
sort all four vectors (Rust's stable `sort`/`sort_by`, modelled with
insertion sort), and flag conflicts iff `modified` is non-empty.  The
single Rust loop over the source map becomes separate traversals; since the
outputs are sorted and `has_conflicts` only tests emptiness, the (arbitrary)
`HashMap` iteration order is immaterial. -/
def BranchDiff.compute (source target : Branch) : BranchDiff :=
  { source_branch := source.name
    target_branch := target.name
    unchanged := (source.head.filterMap fun p =>
      match target.head.lookup p.1 with
      | some tv => if p.2 == tv then some p.1 else none
      | none => none).insertionSort strLe
    modified := (modifiedEntries source target).insertionSort keyLe
    added_in_source := (source.head.filterMap fun p =>
      match target.head.lookup p.1 with
      | some _ => none
      | none => some p).insertionSort keyLe
    added_in_target := (target.head.filterMap fun p =>
      if (source.head.lookup p.1).isSome then none
      else some p).insertionSort keyLe
    has_conflicts := !(modifiedEntries source target).isEmpty }

/-- `BranchDiff::conflicting_tables`. -/
def BranchDiff.conflicting_tables (d : BranchDiff) : List String :=
  d.modified.map (·.1)

/-- `BranchManager::can_fast_forward` at the level of the two loaded
branches: no divergence means no `modified` entries. -/
def can_fast_forward (source target : Branch) : Bool :=
  !(BranchDiff.compute source target).has_conflicts

/-- `BranchManager::merge_fast_forward` at the level of the two loaded
branches: on conflict, return `MergeConflict` with the conflicting tables
and no new target state (the Rust code returns before `save_branch`, so the
persisted target is untouched); otherwise apply every source head pointer
to the target and return the updated target (persisted by `save_branch`).
The Rust iteration order over the source `HashMap` is arbitrary; keys are
distinct, so the fold result does not depend on it. -/
def merge_fast_forward (source target : Branch) : Except BranchError Branch :=
  let diff := BranchDiff.compute source target
  if diff.has_conflicts then .error (.MergeConflict diff.conflicting_tables)
  else .ok (source.head.foldl
    (fun tb p => { tb with head := set_table_version tb.head p.1 p.2 }) target)

/-- `Modelled from the Unicode tables behind Rust char::is_alphanumeric`
(Unicode `Alphabetic` or `Nd`/`Nl`/`No`): exact for code points below
`0x100` — ASCII alphanumerics, the Latin-1 letters `ª µ º À-Ö Ø-ö ø-ÿ` and
the Latin-1 numeric characters `² ³ ¹ ¼ ½ ¾` — and conservatively `false`
for higher code points (no theorem evaluates it there). -/
def rustIsAlphanumeric (c : Char) : Bool :=
  if c.toNat < 128 then c.isAlpha || c.isDigit
  else if c.toNat < 256 then
    c.toNat == 0xAA || c.toNat == 0xB5 || c.toNat == 0xBA ||
    (0xC0 ≤ c.toNat && c.toNat ≤ 0xFF && !(c.toNat == 0xD7) &&
      !(c.toNat == 0xF7)) ||
    c.toNat == 0xB2 || c.toNat == 0xB3 || c.toNat == 0xB9 ||
    c.toNat == 0xBC || c.toNat == 0xBD || c.toNat == 0xBE
  else false

/-- Rust `str::contains("//")`: some two adjacent characters are both
slashes. -/
def hasDoubleSlash : List Char → Bool
  | [] => false
  | [_] => false
  | a :: b :: rest => (a == '/' && b == '/') || hasDoubleSlash (b :: rest)

/-- `BranchManager::validate_branch_name`
(`src/udr_core/src/branch/manager.rs`): reject the empty name, a leading
underscore, any character that is neither alphanumeric (Unicode, via
`char::is_alphanumeric`) nor `- _ /`, and a `//` substring — in that
order. -/
def validate_branch_name (name : String) : Except BranchError Unit :=
  if name.data.isEmpty then
    .error (.InvalidBranchName ("Branch name cannot be empty"))
  else if name.data.head? == some '_' then
    .error (.InvalidBranchName ("Branch name cannot start with underscore"))
  else if ¬ (name.data.all fun c =>
      rustIsAlphanumeric c || c == '-' || c == '_' || c == '/') then
    .error (.InvalidBranchName ("Branch name contains invalid characters"))
  else if hasDoubleSlash name.data then
    .error (.InvalidBranchName ("Branch name cannot contain double slashes"))
  else .ok ()

/-! ### C7 -/

/-- The acceptance condition of `validate_branch_name`, spelled out. -/
def validNameSpec (name : String) : Prop :=
  name.data ≠ [] ∧
  name.data.head? ≠ some '_' ∧
  (∀ c ∈ name.data,
    rustIsAlphanumeric c = true ∨ c = '-' ∨ c = '_' ∨ c = '/') ∧
  hasDoubleSlash name.data = false

/-- C7 (amended): name validation returns `InvalidBranchName` exactly when
the name is empty, starts with `_`, contains `//`, or contains a character
that is neither *Unicode* alphanumeric (Rust `char::is_alphanumeric`) nor
one of `- _ /`; every other name passes.  The claim's ASCII-only class
`[A-Za-z0-9_-]` is too narrow — see the counterexample. -/
theorem C7_validate_branch_name (name : String) :
    (validate_branch_name name = .ok () ↔ validNameSpec name) ∧
    ((∃ m, validate_branch_name name = .error (.InvalidBranchName m)) ↔
      ¬ validNameSpec name) := by
  have hall : (name.data.all fun c =>
      rustIsAlphanumeric c || c == '-' || c == '_' || c == '/') = true ↔
      (∀ c ∈ name.data,
        rustIsAlphanumeric c = true ∨ c = '-' ∨ c = '_' ∨ c = '/') := by
    rw [List.all_eq_true]
    constructor
    · intro h c hc
      have hx := h c hc
      simp only [Bool.or_eq_true, beq_iff_eq] at hx
      tauto
    · intro h c hc
      have hx := h c hc
      simp only [Bool.or_eq_true, beq_iff_eq]
      tauto
  by_cases h1 : name.data.isEmpty = true
  · have hns : ¬ validNameSpec name := fun hs =>
      hs.1 (List.isEmpty_iff.mp h1)
    simp [validate_branch_name, h1, hns]
  · by_cases h2 : (name.data.head? == some '_') = true
    · have hns : ¬ validNameSpec name := fun hs =>
        hs.2.1 (beq_iff_eq.mp h2)
      simp [validate_branch_name, h1, h2, hns]
    · by_cases h3 : (name.data.all fun c =>
          rustIsAlphanumeric c || c == '-' || c == '_' || c == '/') = true
      · by_cases h4 : hasDoubleSlash name.data = true
        · have hns : ¬ validNameSpec name := fun hs => by
            rw [hs.2.2.2] at h4
            cases h4
          simp [validate_branch_name, h1, h2, h3, h4, hns]
        · have hs : validNameSpec name := by
            refine ⟨?_, ?_, hall.mp h3, Bool.not_eq_true _ |>.mp h4⟩
            · intro he
              exact h1 (by simp [he])
            · intro hh
              exact h2 (by simp [hh])
          simp [validate_branch_name, h1, h2, h3, h4, hs]
      · have hns : ¬ validNameSpec name := fun hs => h3 (hall.mpr hs.2.2.1)
        simp [validate_branch_name, h1, h2, h3, hns]

/-- A name containing a non-ASCII Unicode letter. -/
def eAcute : String := "é"

/-- The claim's character class: `[A-Za-z0-9_-]` plus the separator `/`. -/
def claimNameChar (c : Char) : Bool :=
  c.isAlpha || c.isDigit || c == '-' || c == '_' || c == '/'

/-- C7 (counterexample to the claim as stated): `é` (U+00E9, a Unicode
letter) is outside `[A-Za-z0-9_-]` and is not `/`, so the claim says
`create("é", …)` fails name validation — but Rust's
`char::is_alphanumeric` accepts it and validation passes. -/
theorem C7_counterexample :
    validate_branch_name eAcute = .ok () ∧
    eAcute.data.all claimNameChar = false :=
  ⟨rfl, by decide⟩

/-! ### C8 -/

/-- C8 (amended, the part that holds): the four vectors of
`BranchDiff::compute` are sorted by table name. -/
theorem C8_branch_diff_sorted (source target : Branch) :
    List.Sorted strLe (BranchDiff.compute source target).unchanged ∧
    List.Sorted keyLe (BranchDiff.compute source target).modified ∧
    List.Sorted keyLe (BranchDiff.compute source target).added_in_source ∧
    List.Sorted keyLe (BranchDiff.compute source target).added_in_target :=
  ⟨List.sorted_insertionSort _ _, List.sorted_insertionSort _ _,
    List.sorted_insertionSort _ _, List.sorted_insertionSort _ _⟩

/-- A two-chunk tree whose leaf hashes are not in sorted order. -/
def treeBA : MerkleTree :=
  ⟨("b"), [⟨("b"), (0, 1), 1, 0⟩, ⟨("a"), (1, 2), 1, 1⟩], [], 2, 1, 2⟩

/-- C8 (counterexample to the claim as stated): `diff_trees` performs no
sort — its vectors come out in hash-set iteration order — so diffing
`treeBA` against itself yields `unchanged_chunks = ["b", "a"]`, which is
not sorted. -/
theorem C8_counterexample :
    (diff_trees treeBA treeBA).unchanged_chunks = [("b"), ("a")] ∧
    ¬ List.Sorted strLe (diff_trees treeBA treeBA).unchanged_chunks := by
  refine ⟨rfl, fun hs => ?_⟩
  have hs' : List.Sorted strLe [("b"), ("a")] := hs
  have h2 : strLe ("b") ("a") :=
    (List.sorted_cons.mp hs').1 _ (List.mem_singleton.mpr rfl)
  exact absurd h2 (by decide)

/-! ### C4 -/

theorem lookup_set_self (h : Head) (t : String) (v : Nat) :
    (set_table_version h t v).lookup t = some v := by
  unfold set_table_version
  by_cases hc : h.any (fun p => p.1 == t) = true
  · rw [if_pos hc]
    induction h with
    | nil => cases hc
    | cons p tl ih =>
      obtain ⟨k, w⟩ := p
      simp only [List.any_cons, Bool.or_eq_true] at hc
      simp only [List.map_cons]
      by_cases hp : (k == t) = true
      · rw [if_pos hp]
        simp [List.lookup]
      · rw [if_neg hp]
        have ht : (t == k) = false := by
          rw [beq_eq_false_iff_ne]
          intro e
          exact hp (beq_iff_eq.mpr e.symm)
        rcases hc with hc | hc
        · exact absurd hc hp
        · simp only [List.lookup, ht]
          exact ih hc
  · rw [if_neg hc]
    induction h with
    | nil => simp [List.lookup]
    | cons p tl ih =>
      obtain ⟨k, w⟩ := p
      simp only [List.any_cons, Bool.or_eq_true, not_or] at hc
      have ht : (t == k) = false := by
        have hx := hc.1
        rw [Bool.not_eq_true, beq_eq_false_iff_ne] at hx
        rw [beq_eq_false_iff_ne]
        exact fun e => hx e.symm
      simp only [List.cons_append, List.lookup, ht]
      exact ih (by simpa using hc.2)

theorem lookup_set_other (h : Head) (t t' : String) (v : Nat)
    (hne : t' ≠ t) :
    (set_table_version h t v).lookup t' = h.lookup t' := by
  have ht' : (t' == t) = false := beq_eq_false_iff_ne.mpr hne
  unfold set_table_version
  by_cases hc : h.any (fun p => p.1 == t) = true
  · rw [if_pos hc]
    clear hc
    induction h with
    | nil => rfl
    | cons p tl ih =>
      obtain ⟨k, w⟩ := p
      simp only [List.map_cons]
      by_cases hp : (k == t) = true
      · have hpt : k = t := beq_iff_eq.mp hp
        have h1 : (t' == k) = false := by
          rw [hpt]
          exact ht'
        rw [if_pos hp]
        simp only [List.lookup, ht', h1]
        exact ih
      · rw [if_neg hp]
        by_cases hk : (t' == k) = true
        · simp [List.lookup, hk]
        · have hkf : (t' == k) = false := (Bool.not_eq_true _).mp hk
          simp only [List.lookup, hkf]
          exact ih
  · rw [if_neg hc]
    clear hc
    induction h with
    | nil => simp [List.lookup, ht']
    | cons p tl ih =>
      obtain ⟨k, w⟩ := p
      by_cases hk : (t' == k) = true
      · simp [List.lookup, hk]
      · have hkf : (t' == k) = false := (Bool.not_eq_true _).mp hk
        simp only [List.cons_append, List.lookup, hkf]
        exact ih

theorem lookup_none_not_mem (l : Head) (t : String)
    (hn : l.lookup t = none) : ∀ p ∈ l, p.1 ≠ t := by
  induction l with
  | nil => intro p hp; cases hp
  | cons q tl ih =>
    obtain ⟨k, w⟩ := q
    intro p hp
    by_cases hk : (t == k) = true
    · simp only [List.lookup, hk] at hn
      cases hn
    · have hkf : (t == k) = false := (Bool.not_eq_true _).mp hk
      simp only [List.lookup, hkf] at hn
      rcases List.mem_cons.mp hp with rfl | hmem
      · intro he
        exact hk (beq_iff_eq.mpr he.symm)
      · exact ih hn p hmem

/-- The update loop of `merge_fast_forward`: apply every source head
pointer to the target branch. -/
def apply_source_heads (src : Head) (target : Branch) : Branch :=
  src.foldl
    (fun tb p => { tb with head := set_table_version tb.head p.1 p.2 }) target

theorem apply_heads_lookup_not_mem (src : Head) (tb : Branch) (t : String)
    (hnot : ∀ p ∈ src, p.1 ≠ t) :
    (apply_source_heads src tb).head.lookup t = tb.head.lookup t := by
  induction src generalizing tb with
  | nil => rfl
  | cons p tl ih =>
    show (apply_source_heads tl _).head.lookup t = _
    rw [ih _ fun q hq => hnot q (List.mem_cons_of_mem _ hq)]
    exact lookup_set_other tb.head p.1 t p.2
      fun e => hnot p (List.mem_cons_self _ _) e.symm

theorem apply_heads_lookup_mem (src : Head) (tb : Branch) (t : String)
    (v : Nat) (hnd : (src.map (·.1)).Nodup) (hl : src.lookup t = some v) :
    (apply_source_heads src tb).head.lookup t = some v := by
  induction src generalizing tb with
  | nil => cases hl
  | cons p tl ih =>
    obtain ⟨k, w⟩ := p
    by_cases hp : (t == k) = true
    · have htk : t = k := beq_iff_eq.mp hp
      have hv : w = v := by
        simp only [List.lookup, hp] at hl
        exact Option.some.inj hl
      have hknot : ∀ q ∈ tl, q.1 ≠ t := by
        intro q hq he
        have hmem : k ∈ tl.map (·.1) := by
          rw [← htk, ← he]
          exact List.mem_map_of_mem _ hq
        exact (List.nodup_cons.mp hnd).1 hmem
      show (apply_source_heads tl _).head.lookup t = some v
      rw [apply_heads_lookup_not_mem tl _ t hknot]
      show (set_table_version tb.head k w).lookup t = some v
      rw [htk, hv]
      exact lookup_set_self tb.head k v
    · have hl' : tl.lookup t = some v := by
        have hpf : (t == k) = false := (Bool.not_eq_true _).mp hp
        simp only [List.lookup, hpf] at hl
        exact hl
      show (apply_source_heads tl _).head.lookup t = some v
      exact ih _ (List.nodup_cons.mp hnd).2 hl' 

theorem insertionSort_eq_nil_iff {α : Type} (r : α → α → Prop)
    [DecidableRel r] (l : List α) : l.insertionSort r = [] ↔ l = [] := by
  constructor
  · intro h
    have hp := List.perm_insertionSort r l
    rw [h] at hp
    exact hp.symm.eq_nil
  · rintro rfl
    rfl

/-- C4: `can_fast_forward(s, t)` holds iff the branch diff has no
`modified` entries; in that case `merge_fast_forward` succeeds and the
resulting target head maps every table of `s`'s head to `s`'s version while
tables absent from `s` keep their `t` versions; otherwise it fails with
`MergeConflict` listing exactly the tables of `modified` (the Rust code
returns before `save_branch`, so the persisted target is unchanged — the
model returns no successor branch on error).  The source head is a
`HashMap`, so its keys are pairwise distinct. -/
theorem C4_fast_forward (source target : Branch)
    (hnd : (source.head.map (·.1)).Nodup) :
    (can_fast_forward source target = true ↔
      (BranchDiff.compute source target).modified = []) ∧
    ((BranchDiff.compute source target).modified = [] →
      ∃ t', merge_fast_forward source target = .ok t' ∧
        (∀ tab v, source.head.lookup tab = some v →
          t'.head.lookup tab = some v) ∧
        (∀ tab, source.head.lookup tab = none →
          t'.head.lookup tab = target.head.lookup tab)) ∧
    ((BranchDiff.compute source target).modified ≠ [] →
      merge_fast_forward source target =
        .error (.MergeConflict
          ((BranchDiff.compute source target).modified.map (·.1)))) := by
  have hiff : (BranchDiff.compute source target).modified = [] ↔
      modifiedEntries source target = [] := by
    show (modifiedEntries source target).insertionSort keyLe = [] ↔ _
    exact insertionSort_eq_nil_iff keyLe _
  refine ⟨?_, ?_, ?_⟩
  · rw [hiff]
    show (!!(modifiedEntries source target).isEmpty) = true ↔ _
    rw [Bool.not_not]
    exact List.isEmpty_iff
  · intro hnilm
    have hnil : modifiedEntries source target = [] := hiff.mp hnilm
    have hcf : (BranchDiff.compute source target).has_conflicts = false := by
      show (!(modifiedEntries source target).isEmpty) = false
      rw [hnil]
      rfl
    refine ⟨apply_source_heads source.head target, ?_, ?_, ?_⟩
    · rw [merge_fast_forward, hcf]
      rfl
    · intro tab v hv
      exact apply_heads_lookup_mem source.head target tab v hnd hv
    · intro tab hv
      exact apply_heads_lookup_not_mem source.head target tab
        (lookup_none_not_mem source.head tab hv)
  · intro hne
    have hnil : modifiedEntries source target ≠ [] :=
      fun h => hne (hiff.mpr h)
    have hcf : (BranchDiff.compute source target).has_conflicts = true := by
      show (!(modifiedEntries source target).isEmpty) = true
      cases hme : modifiedEntries source target with
      | nil => exact absurd hme hnil
      | cons a l => rfl
    rw [merge_fast_forward, hcf]
    rfl

/-- A source branch adding the `orders` table. -/
def featBranch : Branch := ⟨("feat"), [(("orders"), 1)], 0, none, none⟩

/-- A target branch holding only the `users` table. -/
def mainBranch : Branch := ⟨("main"), [(("users"), 1)], 0, none, none⟩

theorem C4_fast_forward_witness :
    (can_fast_forward featBranch mainBranch = true ↔
      (BranchDiff.compute featBranch mainBranch).modified = []) ∧
    ((BranchDiff.compute featBranch mainBranch).modified = [] →
      ∃ t', merge_fast_forward featBranch mainBranch = .ok t' ∧
        (∀ tab v, featBranch.head.lookup tab = some v →
          t'.head.lookup tab = some v) ∧
        (∀ tab, featBranch.head.lookup tab = none →
          t'.head.lookup tab = mainBranch.head.lookup tab)) ∧
    ((BranchDiff.compute featBranch mainBranch).modified ≠ [] →
      merge_fast_forward featBranch mainBranch =
        .error (.MergeConflict
          ((BranchDiff.compute featBranch mainBranch).modified.map (·.1)))) :=
  C4_fast_forward featBranch mainBranch (by decide)

/-! ## Vector clocks (`src/rhizo_core/src/distributed/vector_clock.rs`) -/

/-- A vector clock: Rust `HashMap<NodeId, u64>` as an association list
(node-id string to logical time); `NodeId` is a newtype over `String`. -/
abbrev VectorClock := List (String × Nat)

/-- `VectorClock::get`: the logical time of a node, `0` when absent. -/
def vcGet (c : VectorClock) (n : String) : Nat := (c.lookup n).getD 0

/-- `CausalOrder` (`src/rhizo_core/src/distributed/vector_clock.rs`). -/
inductive CausalOrder where
  | Before
  | After
  | Concurrent
  | Equal
deriving DecidableEq

/-- `VectorClock::partial_cmp`: walk the union of both key sets, flagging
strictly-smaller and strictly-greater components.  The Rust loop returns
`None` as soon as both flags are set; that early exit yields the same
result as testing the final flags, which is how the loop is rendered
here. -/
def vcCmp (a b : VectorClock) : Option Ordering :=
  let nodes := (a.map (·.1) ++ b.map (·.1)).dedup
  let lt := nodes.any fun n => decide (vcGet a n < vcGet b n)
  let gt := nodes.any fun n => decide (vcGet b n < vcGet a n)
  match lt, gt with
  | true, true => none
  | true, false => some .lt
  | false, true => some .gt
  | false, false => some .eq

/-- `VectorClock::happened_before`: `partial_cmp == Some(Less)`. -/
def happened_before (a b : VectorClock) : Bool :=
  decide (vcCmp a b = some .lt)

/-- `VectorClock::concurrent_with`: `partial_cmp(...).is_none()`. -/
def concurrent_with (a b : VectorClock) : Bool :=
  (vcCmp a b).isNone

/-- `VectorClock::compare`. -/
def compareClocks (a b : VectorClock) : CausalOrder :=
  match vcCmp a b with
  | some .lt => .Before
  | some .gt => .After
  | some .eq => .Equal
  | none => .Concurrent

/-! ### C5 -/

theorem lookup_eq_none_of_forall_ne {β : Type} (l : List (String × β))
    (t : String) (h : ∀ p ∈ l, p.1 ≠ t) : l.lookup t = none := by
  induction l with
  | nil => rfl
  | cons q tl ih =>
    obtain ⟨k, w⟩ := q
    have hk : (t == k) = false := by
      rw [beq_eq_false_iff_ne]
      exact fun e => h (k, w) (List.mem_cons_self _ _) e.symm
    simp only [List.lookup, hk]
    exact ih fun p hp => h p (List.mem_cons_of_mem _ hp)

theorem vcGet_eq_zero_of_not_mem (c : VectorClock) (n : String)
    (h : n ∉ c.map (·.1)) : vcGet c n = 0 := by
  have hn : c.lookup n = none := by
    refine lookup_eq_none_of_forall_ne c n fun p hp he => ?_
    exact h (he ▸ List.mem_map_of_mem _ hp)
  rw [vcGet, hn]
  rfl

theorem vc_any_lt_iff (a b : VectorClock) (nodes : List String)
    (hsub : ∀ n, (n ∈ a.map (·.1) ∨ n ∈ b.map (·.1)) → n ∈ nodes) :
    (nodes.any fun n => decide (vcGet a n < vcGet b n)) = true ↔
      ∃ n, vcGet a n < vcGet b n := by
  rw [List.any_eq_true]
  constructor
  · rintro ⟨n, _, hn⟩
    exact ⟨n, of_decide_eq_true hn⟩
  · rintro ⟨n, hn⟩
    refine ⟨n, ?_, decide_eq_true hn⟩
    by_contra hmem
    have ha : vcGet a n = 0 :=
      vcGet_eq_zero_of_not_mem a n fun hx => hmem (hsub n (Or.inl hx))
    have hb : vcGet b n = 0 :=
      vcGet_eq_zero_of_not_mem b n fun hx => hmem (hsub n (Or.inr hx))
    omega

theorem vcCmp_cases (a b : VectorClock) :
    (vcCmp a b = some .lt ↔
      (∃ n, vcGet a n < vcGet b n) ∧ ¬ ∃ n, vcGet b n < vcGet a n) ∧
    (vcCmp a b = some .gt ↔
      (¬ ∃ n, vcGet a n < vcGet b n) ∧ ∃ n, vcGet b n < vcGet a n) ∧
    (vcCmp a b = some .eq ↔
      (¬ ∃ n, vcGet a n < vcGet b n) ∧ ¬ ∃ n, vcGet b n < vcGet a n) ∧
    (vcCmp a b = none ↔
      (∃ n, vcGet a n < vcGet b n) ∧ ∃ n, vcGet b n < vcGet a n) := by
  have hsub : ∀ n, (n ∈ a.map (·.1) ∨ n ∈ b.map (·.1)) →
      n ∈ (a.map (·.1) ++ b.map (·.1)).dedup := by
    intro n hn
    rw [List.mem_dedup, List.mem_append]
    exact hn
  have hlt := vc_any_lt_iff a b _ hsub
  have hgt := vc_any_lt_iff b a _ fun n hn => hsub n hn.symm
  simp only [vcCmp]
  cases hL : ((a.map (·.1) ++ b.map (·.1)).dedup.any
      fun n => decide (vcGet a n < vcGet b n)) <;>
    cases hG : ((a.map (·.1) ++ b.map (·.1)).dedup.any
      fun n => decide (vcGet b n < vcGet a n)) <;>
    rw [hL] at hlt <;> rw [hG] at hgt <;>
    simp only [Bool.false_eq_true, false_iff, Bool.true_eq, true_iff] at hlt hgt <;>
    simp [hlt, hgt]

/-- C5: with missing entries read as `0`, `happened_before(A, B)` holds iff
`A ≤ B` pointwise and `A ≠ B`; `concurrent_with(A, B)` holds iff neither
`A ≤ B` nor `B ≤ A` pointwise; and `compare` returns `Equal` iff the two
clocks agree on every node. -/
theorem C5_vector_clock_order (a b : VectorClock) :
    (happened_before a b = true ↔
      (∀ n, vcGet a n ≤ vcGet b n) ∧ ¬ ∀ n, vcGet a n = vcGet b n) ∧
    (concurrent_with a b = true ↔
      (¬ ∀ n, vcGet a n ≤ vcGet b n) ∧ ¬ ∀ n, vcGet b n ≤ vcGet a n) ∧
    (compareClocks a b = .Equal ↔ ∀ n, vcGet a n = vcGet b n) := by
  obtain ⟨hlt, hgt, heq, hnone⟩ := vcCmp_cases a b
  refine ⟨?_, ?_, ?_⟩
  · rw [happened_before, decide_eq_true_eq, hlt]
    constructor
    · rintro ⟨⟨n0, hn0⟩, hno⟩
      refine ⟨fun n => ?_, fun hall => by have := hall n0; omega⟩
      by_contra hc
      exact hno ⟨n, by omega⟩
    · rintro ⟨hle, hne⟩
      refine ⟨?_, fun hx => ?_⟩
      · by_contra hno
        push_neg at hno
        exact hne fun n => le_antisymm (hle n) (hno n)
      · obtain ⟨n, hn⟩ := hx
        exact absurd (hle n) (by omega)
  · rw [concurrent_with, Option.isNone_iff_eq_none, hnone]
    constructor
    · rintro ⟨⟨n1, h1⟩, ⟨n2, h2⟩⟩
      exact ⟨fun hall => absurd (hall n2) (by omega),
        fun hall => absurd (hall n1) (by omega)⟩
    · rintro ⟨h1, h2⟩
      push_neg at h1 h2
      obtain ⟨n1, hn1⟩ := h1
      obtain ⟨n2, hn2⟩ := h2
      exact ⟨⟨n2, by omega⟩, ⟨n1, by omega⟩⟩
  · have hcmp : compareClocks a b = .Equal ↔ vcCmp a b = some .eq := by
      rw [compareClocks]
      cases hv : vcCmp a b with
      | none => simp
      | some o => cases o <;> simp
    rw [hcmp, heq]
    constructor
    · rintro ⟨h1, h2⟩ n
      have hx1 : ¬ vcGet a n < vcGet b n := fun hc => h1 ⟨n, hc⟩
      have hx2 : ¬ vcGet b n < vcGet a n := fun hc => h2 ⟨n, hc⟩
      omega
    · intro hall
      exact ⟨fun ⟨n, hn⟩ => by have := hall n; omega,
        fun ⟨n, hn⟩ => by have := hall n; omega⟩

/-! ## Parquet predicate filters (`src/udr_core/src/parquet/filter.rs`) -/

/-- `FilterOp` (`src/udr_core/src/parquet/filter.rs`). -/
inductive FilterOp where
  | Eq
  | Ne
  | Lt
  | Le
  | Gt
  | Ge
deriving DecidableEq

/-- An IEEE-754 double as the filter code observes it: NaN-ness, and for
non-NaN values the (rational) number denoted.  `f64` comparisons on non-NaN
values agree with comparisons of the denoted numbers, and any comparison
involving NaN is false except `!=`. -/
structure F64 where
  isNan : Bool
  val : Rat
deriving DecidableEq

/-- `ScalarValue` (`src/udr_core/src/parquet/filter.rs`).  `i64`/`i32`
payloads are carried as `Int`: the filter code only compares them (no
arithmetic), and comparison of in-range machine integers agrees with
integer comparison. -/
inductive ScalarValue where
  | Int64 (v : Int)
  | Float64 (v : F64)
  | Utf8 (v : String)
  | Boolean (v : Bool)
  | Int32 (v : Int)
  | Null
deriving DecidableEq

/-- `compare_ord` (`src/udr_core/src/parquet/filter.rs`). -/
def compare_ord {α : Type} [LinearOrder α] (a b : α) (op : FilterOp) : Bool :=
  match op with
  | .Eq => decide (a = b)
  | .Ne => decide (a ≠ b)
  | .Lt => decide (a < b)
  | .Le => decide (a ≤ b)
  | .Gt => decide (b < a)
  | .Ge => decide (b ≤ a)

/-- `ScalarValue::compare` (`src/udr_core/src/parquet/filter.rs`):
`None` on type mismatch, NaN-aware for floats, only `=`/`!=` for
booleans. -/
def ScalarValue.compare (self other : ScalarValue) (op : FilterOp) :
    Option Bool :=
  match self, other with
  | .Int64 a, .Int64 b => some (compare_ord a b op)
  | .Int32 a, .Int32 b => some (compare_ord a b op)
  | .Float64 a, .Float64 b =>
    if a.isNan || b.isNan then
      match op with
      | .Ne => some true
      | _ => some false
    else some (compare_ord a.val b.val op)
  | .Utf8 a, .Utf8 b => some (compare_ord a b op)
  | .Boolean a, .Boolean b =>
    match op with
    | .Eq => some (a == b)
    | .Ne => some (a != b)
    | _ => none
  | _, _ => none

/-- `PredicateFilter` (`src/udr_core/src/parquet/filter.rs`). -/
structure PredicateFilter where
  column : String
  op : FilterOp
  value : ScalarValue
deriving DecidableEq

/-- `PredicateFilter::can_prune_row_group`
(`src/udr_core/src/parquet/filter.rs`). -/
def PredicateFilter.can_prune_row_group (self : PredicateFilter)
    (mn mx : Option ScalarValue) : Bool :=
  match self.op with
  | .Gt =>
    match mx with
    | some max_val => (max_val.compare self.value .Le).getD false
    | none => false
  | .Ge =>
    match mx with
    | some max_val => (max_val.compare self.value .Lt).getD false
    | none => false
  | .Lt =>
    match mn with
    | some min_val => (min_val.compare self.value .Ge).getD false
    | none => false
  | .Le =>
    match mn with
    | some min_val => (min_val.compare self.value .Gt).getD false
    | none => false
  | .Eq =>
    let below_min := (mn.bind fun m => self.value.compare m .Lt).getD false
    let above_max := (mx.bind fun m => self.value.compare m .Gt).getD false
    below_min || above_max
  | .Ne =>
    match mn, mx with
    | some min_val, some max_val =>
      ((min_val.compare self.value .Eq).getD false) &&
        ((max_val.compare self.value .Eq).getD false)
    | _, _ => false

/-! ### C3 -/

/-- The spec's strict order `a < b` on same-typed scalars.  Floats follow
IEEE (NaN unordered); booleans and `Null` support no order comparison (the
spec: "booleans support only `=` and `≠`"). -/
def sLt : ScalarValue → ScalarValue → Prop
  | .Int64 a, .Int64 b => a < b
  | .Int32 a, .Int32 b => a < b
  | .Float64 a, .Float64 b =>
    a.isNan = false ∧ b.isNan = false ∧ a.val < b.val
  | .Utf8 a, .Utf8 b => a < b
  | _, _ => False

/-- The spec's order `a ≤ b` on same-typed scalars (IEEE for floats). -/
def sLe : ScalarValue → ScalarValue → Prop
  | .Int64 a, .Int64 b => a ≤ b
  | .Int32 a, .Int32 b => a ≤ b
  | .Float64 a, .Float64 b =>
    a.isNan = false ∧ b.isNan = false ∧ a.val ≤ b.val
  | .Utf8 a, .Utf8 b => a ≤ b
  | _, _ => False

/-- The spec's equality `a = b` on same-typed scalars (IEEE for floats:
NaN equals nothing). -/
def sEq : ScalarValue → ScalarValue → Prop
  | .Int64 a, .Int64 b => a = b
  | .Int32 a, .Int32 b => a = b
  | .Float64 a, .Float64 b =>
    a.isNan = false ∧ b.isNan = false ∧ a.val = b.val
  | .Utf8 a, .Utf8 b => a = b
  | .Boolean a, .Boolean b => a = b
  | _, _ => False

/-- The claim's pruning condition, written from the spec sentence:
`>`/`≥` prune on `max ≤ value` / `max < value`; `<`/`≤` symmetrically on
`min`; `=` prunes when `value < min ∨ value > max`; `≠` prunes only when
`min = max = value`; and a rule whose statistic is absent never prunes. -/
def pruneSpec (f : PredicateFilter) (mn mx : Option ScalarValue) : Prop :=
  match f.op with
  | .Gt => ∃ m, mx = some m ∧ sLe m f.value
  | .Ge => ∃ m, mx = some m ∧ sLt m f.value
  | .Lt => ∃ m, mn = some m ∧ sLe f.value m
  | .Le => ∃ m, mn = some m ∧ sLt f.value m
  | .Eq => (∃ m, mn = some m ∧ sLt f.value m) ∨
      (∃ m, mx = some m ∧ sLt m f.value)
  | .Ne => ∃ m M, mn = some m ∧ mx = some M ∧ sEq m f.value ∧ sEq M f.value

theorem compare_lt_iff (x v : ScalarValue) :
    (x.compare v .Lt).getD false = true ↔ sLt x v := by
  cases x <;> cases v <;>
    simp [ScalarValue.compare, compare_ord, sLt]
  case Float64.Float64 a b =>
    cases ha : a.isNan <;> cases hb : b.isNan <;>
      simp [ha, hb, ScalarValue.compare]

theorem compare_le_iff (x v : ScalarValue) :
    (x.compare v .Le).getD false = true ↔ sLe x v := by
  cases x <;> cases v <;>
    simp [ScalarValue.compare, compare_ord, sLe]
  case Float64.Float64 a b =>
    cases ha : a.isNan <;> cases hb : b.isNan <;>
      simp [ha, hb, ScalarValue.compare]

theorem compare_gt_iff (x v : ScalarValue) :
    (x.compare v .Gt).getD false = true ↔ sLt v x := by
  cases x <;> cases v <;>
    simp [ScalarValue.compare, compare_ord, sLt]
  case Float64.Float64 a b =>
    cases ha : a.isNan <;> cases hb : b.isNan <;>
      simp [ha, hb, ScalarValue.compare, and_left_comm, and_comm]

theorem compare_ge_iff (x v : ScalarValue) :
    (x.compare v .Ge).getD false = true ↔ sLe v x := by
  cases x <;> cases v <;>
    simp [ScalarValue.compare, compare_ord, sLe]
  case Float64.Float64 a b =>
    cases ha : a.isNan <;> cases hb : b.isNan <;>
      simp [ha, hb, ScalarValue.compare, and_left_comm, and_comm]

theorem compare_eq_iff (x v : ScalarValue) :
    (x.compare v .Eq).getD false = true ↔ sEq x v := by
  cases x <;> cases v <;>
    simp [ScalarValue.compare, compare_ord, sEq]
  case Float64.Float64 a b =>
    cases ha : a.isNan <;> cases hb : b.isNan <;>
      simp [ha, hb, ScalarValue.compare]

/-- C3: `can_prune_row_group(min, max)` returns `true` exactly under the
spec's pruning conditions, with the comparisons read as same-typed scalar
comparisons (IEEE for floats; no order on booleans, which the spec restricts
to `=`/`≠`), and in particular returns `false` whenever the statistic a rule
needs is absent.  Stated for *all* scalars, not only same-typed ones — on a
type mismatch both sides are false — so the claim's same-type instance is a
specialization. -/
theorem C3_can_prune_row_group (f : PredicateFilter)
    (mn mx : Option ScalarValue) :
    f.can_prune_row_group mn mx = true ↔ pruneSpec f mn mx := by
  obtain ⟨col, op, v⟩ := f
  cases op
  case Gt =>
    cases mx <;>
      simp [PredicateFilter.can_prune_row_group, pruneSpec, compare_le_iff]
  case Ge =>
    cases mx <;>
      simp [PredicateFilter.can_prune_row_group, pruneSpec, compare_lt_iff]
  case Lt =>
    cases mn <;>
      simp [PredicateFilter.can_prune_row_group, pruneSpec, compare_ge_iff]
  case Le =>
    cases mn <;>
      simp [PredicateFilter.can_prune_row_group, pruneSpec, compare_gt_iff]
  case Eq =>
    cases mn <;> cases mx <;>
      simp [PredicateFilter.can_prune_row_group, pruneSpec, compare_lt_iff,
        compare_gt_iff]
  case Ne =>
    cases mn <;> cases mx <;>
      simp [PredicateFilter.can_prune_row_group, pruneSpec, compare_eq_iff]

/-! ## Parquet codec (`src/udr_core/src/parquet/encoder.rs`, `decoder.rs`) -/

/-- `ParquetError` (`error.rs`); the `Arrow`/`Parquet` payloads of the
external crates are carried as plain messages, and only the variants the
embedded functions produce are kept. -/
inductive ParquetError where
  | Arrow (msg : String)
  | Parquet (msg : String)
  | EmptyData
  | InvalidCompression (s : String)
  | InvalidColumn (msg : String)
deriving DecidableEq

/-- An Arrow `RecordBatch` as the embedded code observes it: named columns
and row-major cells. -/
structure RecordBatch where
  schema : List String
  rows : List (List ScalarValue)
deriving DecidableEq

/-- `RecordBatch::num_rows`. -/
def RecordBatch.num_rows (b : RecordBatch) : Nat := b.rows.length

/-- `ParquetEncoder::encode` (`src/udr_core/src/parquet/encoder.rs`):
reject zero-row batches with `EmptyData`; the actual byte serialization is
performed by the external `parquet` crate and is modelled as an opaque
success carrying the batch (compression and statistics options do not
affect the embedded control flow). -/
def ParquetEncoder.encode (batch : RecordBatch) :
    Except ParquetError RecordBatch :=
  if batch.num_rows = 0 then .error .EmptyData
  else .ok batch

/-- One Parquet row group as `decode_with_filter` observes it: per-column
`(min, max)` statistics (`extract_column_stats`, `None` when unavailable)
and the rows it stores. -/
structure RowGroup where
  stats : List (Option ScalarValue × Option ScalarValue)
  rows : List (List ScalarValue)
deriving DecidableEq

/-- A Parquet file as the decoder observes it: the schema (column names in
order) and the row groups of the file metadata. -/
structure ParquetFile where
  schema : List String
  row_groups : List RowGroup
deriving DecidableEq

/-- The free `can_prune_row_group` of `decoder.rs`: a row group is pruned
iff *any* filter can prune it from that column's statistics. -/
def can_prune_row_group_meta (rg : RowGroup)
    (filters : List PredicateFilter) (column_indices : List Nat) : Bool :=
  (filters.zip column_indices).any fun p =>
    let st := (rg.stats.get? p.2).getD (none, none)
    p.1.can_prune_row_group st.1 st.2

/-- The filter-column resolution loop of `decode_with_filter`: map every
filter column to its schema index, failing with `InvalidColumn` on the
first unknown name. -/
def resolveFilterColumns (schema : List String) :
    List PredicateFilter → Except ParquetError (List Nat)
  | [] => .ok []
  | f :: fs =>
    match schema.findIdx? (fun n => n == f.column) with
    | none => .error (.InvalidColumn f.column)
    | some i =>
      match resolveFilterColumns schema fs with
      | .error e => .error e
      | .ok is => .ok (i :: is)

/-- `apply_single_filter` (`decoder.rs`) on one cell: Arrow's comparison
kernels on matching `Int64`/`Int32`/`Float64`/`Utf8` types (IEEE semantics
for floats), `SchemaError` (an Arrow error) on any other combination. -/
def arrowCompare (cell : ScalarValue) (op : FilterOp) (v : ScalarValue) :
    Except ParquetError Bool :=
  match cell, v with
  | .Int64 a, .Int64 b => .ok (compare_ord a b op)
  | .Int32 a, .Int32 b => .ok (compare_ord a b op)
  | .Float64 a, .Float64 b =>
    if a.isNan || b.isNan then
      .ok (match op with | .Ne => true | _ => false)
    else .ok (compare_ord a.val b.val op)
  | .Utf8 a, .Utf8 b => .ok (compare_ord a b op)
  | _, _ => .error (.Arrow ("unsupported filter type combination"))

/-- `apply_filters` (`decoder.rs`) on one row: the conjunction of all
predicates, each evaluated on the row's cell of the filter's column. -/
def rowMatches (schema : List String) (filters : List PredicateFilter)
    (row : List ScalarValue) : Except ParquetError Bool :=
  match filters with
  | [] => .ok true
  | f :: fs =>
    match schema.findIdx? (fun n => n == f.column) with
    | none => .error (.Arrow ("column not found in batch"))
    | some i =>
      match arrowCompare ((row.get? i).getD .Null) f.op f.value with
      | .error e => .error e
      | .ok b =>
        match rowMatches schema fs row with
        | .error e => .error e
        | .ok b2 => .ok (b && b2)

/-- The row filter of `decode_with_filter`: keep the rows whose mask bit is
set. -/
def filterRows (schema : List String) (filters : List PredicateFilter) :
    List (List ScalarValue) → Except ParquetError (List (List ScalarValue))
  | [] => .ok []
  | r :: rs =>
    match rowMatches schema filters r with
    | .error e => .error e
    | .ok b =>
      match filterRows schema filters rs with
      | .error e => .error e
      | .ok rest => .ok (if b then r :: rest else rest)

/-- `ParquetDecoder::decode` (`decoder.rs`): concatenate all row groups; a
file yielding no batches (zero rows) is `EmptyData`. -/
def ParquetDecoder.decode (file : ParquetFile) :
    Except ParquetError (List (List ScalarValue)) :=
  let rows := (file.row_groups.map (·.rows)).flatten
  if rows.isEmpty then .error .EmptyData
  else .ok rows

/-- `ParquetDecoder::decode_columns` (`decoder.rs`): projection by column
index; empty projections are `InvalidColumn`, zero rows `EmptyData`.
(An out-of-range index errors in the external reader; the model reads it as
`Null`, which no theorem exercises.) -/
def ParquetDecoder.decode_columns (file : ParquetFile) (cols : List Nat) :
    Except ParquetError (List (List ScalarValue)) :=
  if cols.isEmpty then .error (.InvalidColumn ("no columns specified"))
  else
    let rows := (file.row_groups.map (·.rows)).flatten
    if rows.isEmpty then .error .EmptyData
    else .ok (rows.map fun r => cols.map fun i => (r.get? i).getD .Null)

/-- `ParquetDecoder::decode_with_filter` (`decoder.rs`): with no filters,
fall back to plain (projected) decode; otherwise resolve filter columns,
prune row groups on statistics (`EmptyData` when *all* are pruned), filter
the surviving rows (`EmptyData` when no batch — i.e. no row — survives),
then project. -/
def ParquetDecoder.decode_with_filter (file : ParquetFile)
    (filters : List PredicateFilter)
    (column_indices : Option (List Nat)) :
    Except ParquetError (List (List ScalarValue)) :=
  if filters.isEmpty then
    match column_indices with
    | some cols => ParquetDecoder.decode_columns file cols
    | none => ParquetDecoder.decode file
  else
    match resolveFilterColumns file.schema filters with
    | .error e => .error e
    | .ok filter_to_column_idx =>
      let kept := file.row_groups.filter fun rg =>
        !(can_prune_row_group_meta rg filters filter_to_column_idx)
      if kept.length = 0 then .error .EmptyData
      else
        match filterRows file.schema filters ((kept.map (·.rows)).flatten) with
        | .error e => .error e
        | .ok rows =>
          if rows.isEmpty then .error .EmptyData
          else .ok (match column_indices with
            | some cols =>
              rows.map fun r => cols.map fun i => (r.get? i).getD .Null
            | none => rows)

/-! ### C9 -/

/-- C9: `put` accepts the empty byte sequence — it succeeds, returns the
digest of the empty input (BLAKE3 abstracted as `f`), and `get` of that
hash returns the empty sequence — while `build_tree` and
`ParquetEncoder::encode` reject empty input with their `EmptyData`
errors. -/
theorem C9_empty_input (f : List Nat → List Nat)
    (hf : ∀ d, (f d).length = 32) (s : ChunkStoreState)
    (hclean : s.lookup (hexHash f []) = none ∨
      s.lookup (hexHash f []) = some []) :
    (∃ s', put f s [] = .ok (hexHash f [], s') ∧
      get s' (hexHash f []) = .ok []) ∧
    (∀ cfg : MerkleConfig, build_tree f [] cfg = .error .EmptyData) ∧
    (∀ b : RecordBatch, b.num_rows = 0 →
      ParquetEncoder.encode b = .error .EmptyData) := by
  refine ⟨?_, fun cfg => rfl, fun b hb => ?_⟩
  · obtain ⟨s', h1, _, h3⟩ := put_get_roundtrip_aux f hf s [] hclean
    exact ⟨s', h1, h3⟩
  · simp [ParquetEncoder.encode, hb]

theorem C9_empty_input_witness :
    (∃ s', put constDigest [] [] = .ok (hexHash constDigest [], s') ∧
      get s' (hexHash constDigest []) = .ok []) ∧
    (∀ cfg : MerkleConfig,
      build_tree constDigest [] cfg = .error .EmptyData) ∧
    (∀ b : RecordBatch, b.num_rows = 0 →
      ParquetEncoder.encode b = .error .EmptyData) :=
  C9_empty_input constDigest (fun _ => rfl) [] (.inl rfl)

/-! ### C10 -/

/-- The filter `id > 10`. -/
def idGt10 : PredicateFilter := ⟨("id"), .Gt, .Int64 10⟩

/-- One row group with `id` statistics `[0, 10]` and one row. -/
def pruneFile : ParquetFile :=
  ⟨[("id")], [⟨[(some (.Int64 0), some (.Int64 10))], [[.Int64 5]]⟩]⟩

/-- One row group without statistics whose single row fails `id > 10`. -/
def noMatchFile : ParquetFile :=
  ⟨[("id")], [⟨[(none, none)], [[.Int64 5]]⟩]⟩

/-- A file with no row groups at all. -/
def emptyFile : ParquetFile := ⟨[("id")], []⟩

/-- C10: when every row group is pruned by statistics (`pruneFile` under
`id > 10`: max `10 ≤ 10` prunes the only group), and likewise when
row-level filtering leaves zero matching rows (`noMatchFile`: no statistics,
so no pruning, but the only row has `id = 5`), `decode_with_filter` returns
the `EmptyData` *error* rather than an empty batch — the same error a plain
`decode` of an empty file yields, so the two cases are indistinguishable to
the caller. -/
theorem C10_empty_result_is_error :
    ParquetDecoder.decode_with_filter pruneFile [idGt10] none =
      .error .EmptyData ∧
    ParquetDecoder.decode_with_filter noMatchFile [idGt10] none =
      .error .EmptyData ∧
    ParquetDecoder.decode emptyFile = .error .EmptyData :=
  ⟨rfl, rfl, rfl⟩

end Rhizo
